import Mathlib

/-!
Verification of the extension registry and command dispatch engine of
`agent-browser` (`src/cli/src/plugins/registry.rs`), as a shallow embedding.

Modelling conventions:
* `serde_json::Value` is embedded as the inductive `Value` below.  serde's
  `Number` is split into `int` (numbers built from `i64`, as produced by
  `Value::from(i64)`) and `num` (numbers built from `f64`); the payload of a
  float number is kept as the exact decimal rational denoted by the token.
  Binary64 rounding, overflow-to-infinity of huge finite decimals, and Ryu
  float formatting are abstracted (no claim depends on them); non-finite
  floats map to `null` exactly as `serde_json::Value::from(f64)` does.
* Rust `HashMap<String, Value>` is embedded as an association list with
  insert-overwrites semantics; the iteration order of `HashMap` is
  unspecified in Rust, the model fixes insertion order.
* `serde_json::Map` (JSON objects) is embedded as a list of key/value pairs
  in literal order; the `BTreeMap` key ordering of serde is abstracted
  (inserting a missing `id` appends it).
* The daemon transport `send_command` and the id generator `gen_id` live in
  files outside `src/` (`connection.rs`, `commands.rs`).  Modelled from the
  spec: the transport is a `send(request, session) -> Result<Response, err>`
  oracle, indexed here by how many requests were sent before; `gen_id` is an
  arbitrary stream of fresh ids indexed by how many ids were generated
  before.  Dispatch functions additionally return the ordered list of
  requests actually handed to the transport, so that "no request is sent"
  claims are statable.
-/

namespace AgentBrowser

/-! ### Characters and strings: primitives mirroring the Rust `str` API -/

/-- Model of Rust `str::starts_with`: `p` is a prefix of `l`. -/
def listPrefixOf : List Char → List Char → Bool
  | [], _ => true
  | _ :: _, [] => false
  | a :: as, b :: bs => a = b && listPrefixOf as bs

/-- Rust `str::ends_with`: `p` is a suffix of `l`. -/
def listSuffixOf (p l : List Char) : Bool :=
  listPrefixOf p.reverse l.reverse

/-- Rust `str::contains` on character lists: `p` occurs contiguously in `l`. -/
def containsSub (p : List Char) : List Char → Bool
  | [] => listPrefixOf p []
  | c :: rest => listPrefixOf p (c :: rest) || containsSub p rest

/-- Rust `haystack.contains(needle)` on strings. -/
def strContains (haystack needle : String) : Bool :=
  containsSub needle.data haystack.data

/-- Core of `str::replace`: replace each leftmost non-overlapping occurrence
of `pat` by `rep`.  (For the empty pattern the model returns the input
unchanged; the engine only ever replaces placeholders of length ≥ 4.) -/
def replaceAux (pat rep : List Char) : List Char → List Char
  | [] => []
  | c :: rest =>
    if 0 < pat.length ∧ listPrefixOf pat (c :: rest) = true then
      rep ++ replaceAux pat rep ((c :: rest).drop pat.length)
    else
      c :: replaceAux pat rep rest
termination_by l => l.length
decreasing_by
  all_goals simp_all [List.length_drop]

/-- Rust `String::replace(pat, rep)`. -/
def strReplace (s pat rep : String) : String :=
  ⟨replaceAux pat.data rep.data s.data⟩

/-! ### The JSON value model (`serde_json::Value`) -/

/-- Model of `serde_json::Value`.  `int` are numbers backed by `i64`, `num` numbers
backed by `f64` (payload: the exact decimal rational, see file header). -/
inductive Value where
  | null
  | bool (b : Bool)
  | int (n : Int)
  | num (q : Rat)
  | str (s : String)
  | arr (items : List Value)
  | obj (fields : List (String × Value))
deriving Repr

/-- Lowercase hex digit, as used by serde's `\u00XX` escapes. -/
def hexDigit (n : Nat) : String :=
  String.singleton (if n < 10 then Char.ofNat ('0'.toNat + n)
    else Char.ofNat ('a'.toNat + (n - 10)))

/-- serde_json's escaping of one character inside a JSON string literal. -/
def escapeChar (c : Char) : String :=
  if c = '\x22' then "\\\x22"
  else if c = '\\' then "\\\\"
  else if c = '\n' then "\\n"
  else if c = '\r' then "\\r"
  else if c = '\t' then "\\t"
  else if c.toNat = 8 then "\\b"
  else if c.toNat = 12 then "\\f"
  else if c.toNat < 32 then "\\u00" ++ hexDigit (c.toNat / 16) ++ hexDigit (c.toNat % 16)
  else String.singleton c

/-- serde_json's escaping of a whole string body. -/
def escapeStr (s : String) : String :=
  s.data.foldl (fun acc c => acc ++ escapeChar c) ""

/-- Comma-join, as in compact JSON serialization. -/
def joinComma : List String → String
  | [] => ""
  | [x] => x
  | x :: y :: rest => x ++ "," ++ joinComma (y :: rest)

/-- Rendering of an `f64`-backed JSON number.  Abstraction of serde's Ryu
shortest-representation formatting: integral values print with a trailing
`.0` as Ryu does; the rendering of non-integral values is abstracted as the
`Rat` rendering (no claim depends on it). -/
def renderFloat (q : Rat) : String :=
  if q.den = 1 then toString q.num ++ ".0" else toString q

mutual

/-- Compact JSON serialization, `serde_json::Value::to_string()`. -/
def renderValue : Value → String
  | .null => "null"
  | .bool b => if b then "true" else "false"
  | .int n => toString n
  | .num q => renderFloat q
  | .str s => "\x22" ++ escapeStr s ++ "\x22"
  | .arr items => "[" ++ joinComma (renderItems items) ++ "]"
  | .obj fields => "\x7b" ++ joinComma (renderFields fields) ++ "\x7d"
termination_by v => sizeOf v
decreasing_by
  all_goals simp_arith

/-- Serialization of the elements of a JSON array. -/
def renderItems : List Value → List String
  | [] => []
  | x :: xs => renderValue x :: renderItems xs
termination_by l => sizeOf l
decreasing_by
  all_goals simp_arith

/-- Serialization of the fields of a JSON object. -/
def renderFields : List (String × Value) → List String
  | [] => []
  | (k, v) :: fs =>
    ("\x22" ++ escapeStr k ++ "\x22:" ++ renderValue v) :: renderFields fs
termination_by l => sizeOf l
decreasing_by
  all_goals simp_arith

end

/-- Rust `Value::get(key)`: field lookup on objects, `None` on everything else. -/
def getField (v : Value) (k : String) : Option Value :=
  match v with
  | .obj fields => (fields.find? (fun f => f.1 == k)).map (fun f => f.2)
  | _ => none

/-! ### Rust primitive-type parsers used by argument coercion -/

/-- Digit string to its numeric value (ASCII digits only, as in Rust's
`from_str_radix`). -/
def digitsToNat (l : List Char) : Nat :=
  l.foldl (fun acc c => acc * 10 + (c.toNat - '0'.toNat)) 0

/-- Rust `str::parse::<i64>()`: optional single sign, one or more ASCII digits,
and the value must fit in a 64-bit signed integer. -/
def parseI64 (s : String) : Option Int :=
  let (sign, rest) :=
    match s.data with
    | '+' :: r => ((1 : Int), r)
    | '-' :: r => ((-1 : Int), r)
    | r => ((1 : Int), r)
  if rest.isEmpty then none
  else if rest.all Char.isDigit then
    let v : Int := sign * (digitsToNat rest : Int)
    if -(2 ^ 63) ≤ v ∧ v < 2 ^ 63 then some v else none
  else none

/-- Rust `str::parse::<bool>()`: exactly the literals `true` and `false`. -/
def parseBool (s : String) : Option Bool :=
  if s = "true" then some true
  else if s = "false" then some false
  else none

/-- Result of `str::parse::<f64>()` before conversion to a JSON value:
either a finite value (kept as the exact decimal rational denoted by the
token) or a non-finite special value. -/
inductive FloatVal where
  | finite (q : Rat)
  | posInf
  | negInf
  | nan
deriving DecidableEq, Repr

/-- Split a character list at the first occurrence of a character (used for
the `.` and the exponent marker of the float grammar). -/
def splitAtChar (c : Char) : List Char → List Char × Option (List Char)
  | [] => ([], none)
  | x :: xs =>
    if x = c then ([], some xs)
    else
      let r := splitAtChar c xs
      (x :: r.1, r.2)

/-- Split a character list at the first `e` or `E` (exponent marker). -/
def splitExp : List Char → List Char × Option (List Char)
  | [] => ([], none)
  | x :: xs =>
    if x = 'e' ∨ x = 'E' then ([], some xs)
    else
      let r := splitExp xs
      (x :: r.1, r.2)

/-- Exponent part of the float grammar: `Sign? Digit+`. -/
def parseExpPart (l : List Char) : Option Int :=
  let (sign, rest) :=
    match l with
    | '+' :: r => ((1 : Int), r)
    | '-' :: r => ((-1 : Int), r)
    | r => ((1 : Int), r)
  if rest.isEmpty then none
  else if rest.all Char.isDigit then some (sign * (digitsToNat rest : Int))
  else none

/-- The finite-number part of Rust's `f64` grammar, after the sign:
`(Digit+ | Digit+ '.' Digit* | Digit* '.' Digit+) Exp?` where
`Exp ::= ('e'|'E') Sign? Digit+`.  Yields the exact decimal rational. -/
def parseDecimal (cs : List Char) : Option Rat :=
  let (mant, expPart) := splitExp cs
  let (ip, fpOpt) := splitAtChar '.' mant
  let fp := fpOpt.getD []
  if ¬ (ip.all Char.isDigit ∧ fp.all Char.isDigit) then none
  else if ip.isEmpty ∧ fp.isEmpty then none
  else
    let expVal : Option Int :=
      match expPart with
      | none => some 0
      | some e => parseExpPart e
    match expVal with
    | none => none
    | some ex =>
      let mantissa : Rat :=
        (digitsToNat ip : Rat) + (digitsToNat fp : Rat) / ((10 : Rat) ^ fp.length)
      some (mantissa * (10 : Rat) ^ ex)

/-- Rust `str::parse::<f64>()`: optional sign, then case-insensitively `inf`,
`infinity` or `nan`, or a finite decimal per `parseDecimal`. -/
def parseF64 (s : String) : Option FloatVal :=
  let (neg, rest) :=
    match s.data with
    | '+' :: r => (false, r)
    | '-' :: r => (true, r)
    | r => (false, r)
  let low := rest.map Char.toLower
  if low = "inf".data ∨ low = "infinity".data then
    some (if neg then .negInf else .posInf)
  else if low = "nan".data then some .nan
  else
    match parseDecimal rest with
    | some q => some (.finite (if neg then -q else q))
    | none => none

/-- Rust `serde_json::Value::from(f64)`: finite floats become numbers, non-finite
floats become `null` (`Number::from_f64` returns `None` on them). -/
def valueFromF64 (f : FloatVal) : Value :=
  match f with
  | .finite q => .num q
  | .posInf => .null
  | .negInf => .null
  | .nan => .null

/-! ### Manifest data model (`registry.rs` struct definitions) -/

/-- Struct `ExtensionArg`: one declared positional argument. -/
structure ExtensionArg where
  name : String
  arg_type : Option String
  required : Option Bool
  default : Option Value
  description : Option String

/-- Struct `ExtensionHandler`: execution strategy of a command. -/
structure ExtensionHandler where
  handler_type : String
  steps : Option (List Value)

/-- Struct `ExtensionCommand`: one named command of a manifest. -/
structure ExtensionCommand where
  name : String
  description : Option String
  args : Option (List ExtensionArg)
  handler : ExtensionHandler

/-- Struct `ExtensionManifest`: a whole extension manifest. -/
structure ExtensionManifest where
  name : String
  version : Option String
  description : Option String
  entry : Option String
  permissions : Option (List String)
  commands : List ExtensionCommand
  min_cli_version : Option String
  max_cli_version : Option String

/-- Modelled from the spec: the daemon transport `Response` type
(`connection.rs` is outside `src/`).  It has a `success` flag; everything
else it may carry is collapsed into an opaque `payload` value. -/
structure Response where
  success : Bool
  payload : Value

/-- Modelled from the spec: `Response::default()`, the zero value of every
field (the running "last response" a macro starts from). -/
def Response.default : Response := ⟨false, .null⟩

/-- Enum `ExtensionError`: the four error kinds of the dispatch engine. -/
inductive ExtensionError where
  | InvalidInvocation (message : String) (usage : String)
  | InvalidValue (message : String) (usage : String)
  | Io (message : String)
  | CommandFailed (response : Response)

/-- Struct `ExtensionRegistry`: the ordered manifest collection, in discovery
order.  (The filesystem walk of `load()` is outside the model; a registry
value stands for whatever list Discovery produced.) -/
structure ExtensionRegistry where
  extensions : List ExtensionManifest

/-- Rust `ExtensionRegistry::find`: first manifest whose `name` matches exactly. -/
def ExtensionRegistry.find (r : ExtensionRegistry) (name : String) :
    Option ExtensionManifest :=
  r.extensions.find? (fun ext => ext.name == name)

/-! ### Bound-argument map (`HashMap<String, Value>`) -/

/-- Rust `HashMap::get`: value of the first (unique) entry with the given key. -/
def lookupArg : List (String × Value) → String → Option Value
  | [], _ => none
  | (k0, v0) :: rest, k => if k0 = k then some v0 else lookupArg rest k

/-- Rust `HashMap::insert`: overwrite the entry if the key is present, append it
otherwise (iteration order of the model is insertion order). -/
def mapInsert (m : List (String × Value)) (k : String) (v : Value) :
    List (String × Value) :=
  match m with
  | [] => [(k, v)]
  | (k0, v0) :: rest =>
    if k0 = k then (k0, v) :: rest else (k0, v0) :: mapInsert rest k v

/-! ### Usage strings and argument binding (`build_usage`, `parse_arg_value`,
`parse_args`) -/

/-- Function `build_usage`: the command's usage line, `<name>` for required
arguments, `[name]` for optional ones. -/
def build_usage (ext : ExtensionManifest) (cmd : ExtensionCommand) : String :=
  let base := "agent-browser " ++ ext.name ++ " " ++ cmd.name
  match cmd.args with
  | none => base
  | some args =>
    args.foldl
      (fun usage arg =>
        let required := arg.required.getD true
        if required then usage ++ " <" ++ arg.name ++ ">"
        else usage ++ " [" ++ arg.name ++ "]")
      base

/-- Function `parse_arg_value`: coerce one raw token against one declared argument. -/
def parse_arg_value (d : ExtensionArg) (raw : String) (usage : String) :
    Except ExtensionError Value :=
  let arg_type := d.arg_type.getD "string"
  if arg_type = "int" then
    match parseI64 raw with
    | some n => .ok (.int n)
    | none => .error (.InvalidValue ("Invalid int for " ++ d.name) usage)
  else if arg_type = "number" then
    match parseF64 raw with
    | some f => .ok (valueFromF64 f)
    | none => .error (.InvalidValue ("Invalid number for " ++ d.name) usage)
  else if arg_type = "bool" then
    match parseBool raw with
    | some b => .ok (.bool b)
    | none => .error (.InvalidValue ("Invalid bool for " ++ d.name) usage)
  else .ok (.str raw)

/-- The per-argument loop of `parse_args` (`for (idx, def) in
defs.iter().enumerate()`), with the running index and the accumulated map. -/
def parseArgsGo (usage : String) (provided : List String) :
    List ExtensionArg → Nat → List (String × Value) →
      Except ExtensionError (List (String × Value))
  | [], _, values => .ok values
  | d :: rest, idx, values =>
    let required := d.required.getD true
    match provided[idx]? with
    | some raw =>
      match parse_arg_value d raw usage with
      | .ok v => parseArgsGo usage provided rest (idx + 1) (mapInsert values d.name v)
      | .error e => .error e
    | none =>
      match d.default with
      | some dv => parseArgsGo usage provided rest (idx + 1) (mapInsert values d.name dv)
      | none =>
        if required then
          .error (.InvalidInvocation ("Missing argument: " ++ d.name) usage)
        else parseArgsGo usage provided rest (idx + 1) values

/-- Function `parse_args`: bind the provided tokens against the declared arguments. -/
def parse_args (ext : ExtensionManifest) (cmd : ExtensionCommand)
    (defs : List ExtensionArg) (provided : List String) :
    Except ExtensionError (List (String × Value)) :=
  let usage := build_usage ext cmd
  if provided.length > defs.length then
    .error (.InvalidInvocation "Too many arguments" usage)
  else parseArgsGo usage provided defs 0 []

/-- Modelled from the spec's words (for the C3 refinement comparison):
"More provided tokens than declared arguments ⇒ InvalidInvocation; for each
declared argument, in order: if a token exists at that position, coerce it;
else if a default is declared, use it; else if the argument is required
(default-true), InvalidInvocation missing-argument; else the argument is
simply absent from the bound map."  Written by structural recursion on the
two lists instead of an index. -/
def parseArgsSpecGo (usage : String) :
    List ExtensionArg → List String → List (String × Value) →
      Except ExtensionError (List (String × Value))
  | [], _, acc => .ok acc
  | d :: ds, raw :: ts, acc =>
    match parse_arg_value d raw usage with
    | .ok v => parseArgsSpecGo usage ds ts (mapInsert acc d.name v)
    | .error e => .error e
  | d :: ds, [], acc =>
    match d.default with
    | some dv => parseArgsSpecGo usage ds [] (mapInsert acc d.name dv)
    | none =>
      if d.required.getD true then
        .error (.InvalidInvocation ("Missing argument: " ++ d.name) usage)
      else parseArgsSpecGo usage ds [] acc

/-- Modelled from the spec's words: the whole of §4.3 step 4 (see
`parseArgsSpecGo`). -/
def parseArgsSpec (ext : ExtensionManifest) (cmd : ExtensionCommand)
    (defs : List ExtensionArg) (provided : List String) :
    Except ExtensionError (List (String × Value)) :=
  let usage := build_usage ext cmd
  if defs.length < provided.length then
    .error (.InvalidInvocation "Too many arguments" usage)
  else parseArgsSpecGo usage defs provided []

/-! ### Macro-step interpolation (`interpolate_value`, `interpolate_string`,
`exact_placeholder`) -/

/-- Function `exact_placeholder`: when the whole string is `\x7b\x7bkey\x7d\x7d` —
starts with the double open brace, ends with the double close brace and is
longer than four bytes — its `key`.  (The byte-length guard is equivalent to
the character-length guard under the two brace guards, since braces are
one-byte characters.) -/
def exact_placeholder (s : String) : Option String :=
  if listPrefixOf ['\x7b', '\x7b'] s.data ∧ listSuffixOf ['\x7d', '\x7d'] s.data ∧
      s.data.length > 4 then
    some ⟨(s.data.drop 2).take (s.data.length - 4)⟩
  else none

/-- The textual value substituted for a placeholder: string arguments
verbatim, everything else through `Value::to_string()`. -/
def renderForSubst (v : Value) : String :=
  match v with
  | .str s => s
  | _ => renderValue v

/-- The substitution loop of `interpolate_string`: for every bound argument
whose placeholder occurs in the running string, replace all its
occurrences. -/
def substAll (args : List (String × Value)) (s : String) : String :=
  args.foldl
    (fun out kv =>
      let placeholder := "\x7b\x7b" ++ kv.1 ++ "\x7d\x7d"
      if strContains out placeholder then
        strReplace out placeholder (renderForSubst kv.2)
      else out)
    s

/-- Function `interpolate_string`: an exact, bound placeholder becomes the raw typed
value; otherwise all bound placeholders are substituted textually. -/
def interpolate_string (s : String) (args : List (String × Value)) : Value :=
  match exact_placeholder s with
  | some key =>
    match lookupArg args key with
    | some v => v
    | none => .str (substAll args s)
  | none => .str (substAll args s)

mutual

/-- Function `interpolate_value`: recursive interpolation over a JSON template. -/
def interpolate_value (v : Value) (args : List (String × Value)) : Value :=
  match v with
  | .str s => interpolate_string s args
  | .arr items => .arr (interpItems items args)
  | .obj fields => .obj (interpFields fields args)
  | other => other
termination_by sizeOf v
decreasing_by
  all_goals simp_arith

/-- Interpolation mapped over the elements of a JSON array. -/
def interpItems (l : List Value) (args : List (String × Value)) : List Value :=
  match l with
  | [] => []
  | x :: xs => interpolate_value x args :: interpItems xs args
termination_by sizeOf l
decreasing_by
  all_goals simp_arith

/-- Interpolation mapped over the values of a JSON object. -/
def interpFields (l : List (String × Value)) (args : List (String × Value)) :
    List (String × Value) :=
  match l with
  | [] => []
  | (k, v) :: fs => (k, interpolate_value v args) :: interpFields fs args
termination_by sizeOf l
decreasing_by
  all_goals simp_arith

end

/-! ### Dispatch (`ensure_command_id`, `execute_extension_command`,
`resolve_invocation`, `try_execute_extension`) -/

/-- Function `ensure_command_id`: insert a fresh id into an object that lacks one.
`genId` is the `gen_id()` stream (modelled from the spec), `ctr` counts the
ids drawn so far; returns the possibly-extended value and the new count. -/
def ensure_command_id (genId : Nat → String) (v : Value) (ctr : Nat) :
    Value × Nat :=
  match v with
  | .obj fields =>
    if (fields.find? (fun f => f.1 == "id")).isSome then (.obj fields, ctr)
    else (.obj (fields ++ [("id", .str (genId ctr))]), ctr + 1)
  | other => (other, ctr)

/-- The `for step in steps` loop of the macro handler.  The transport is an
oracle giving the outcome of each successive `send_command` call (index 0 is
the next call); the returned list is the sequence of requests actually
handed to the transport, in order. -/
def runSteps (genId : Nat → String) (usage : String)
    (args : List (String × Value)) :
    (Nat → Except String Response) → List Value → Nat → Response →
      (Except ExtensionError Response) × List Value
  | _, [], _, lastResp => (.ok lastResp, [])
  | oracle, step :: rest, idCtr, _ =>
    let rp := ensure_command_id genId (interpolate_value step args) idCtr
    let rendered := rp.1
    if (getField rendered "action").isSome = false then
      (.error (.InvalidInvocation "Macro step missing action field" usage), [])
    else
      match oracle 0 with
      | .error e => (.error (.Io e), [rendered])
      | .ok resp =>
        if resp.success = false then (.error (.CommandFailed resp), [rendered])
        else
          let res := runSteps genId usage args (fun n => oracle (n + 1)) rest rp.2 resp
          (res.1, rendered :: res.2)

/-- The requests a macro renders for its steps, in order, starting from id
counter `ctr` (what the loop would send if nothing stops it). -/
def renderSeq (genId : Nat → String) (args : List (String × Value)) :
    List Value → Nat → List Value
  | [], _ => []
  | step :: rest, ctr =>
    let rp := ensure_command_id genId (interpolate_value step args) ctr
    rp.1 :: renderSeq genId args rest rp.2

/-- Function `execute_extension_command`: dispatch one resolved command.  The session
string and the (unused) flags are absorbed into the transport oracle; the
second component is the ordered list of requests given to the transport. -/
def execute_extension_command (ext : ExtensionManifest) (cmd : ExtensionCommand)
    (args : List (String × Value)) (oracle : Nat → Except String Response)
    (genId : Nat → String) :
    (Except ExtensionError Response) × List Value :=
  let ty := cmd.handler.handler_type
  if ty = "macro" then
    match cmd.handler.steps with
    | none =>
      (.error (.InvalidInvocation "Macro handler missing steps" (build_usage ext cmd)), [])
    | some steps =>
      runSteps genId (build_usage ext cmd) args oracle steps 0 Response.default
  else if ty = "daemon" then
    let rendered : Value :=
      .obj [("id", .str (genId 0)), ("action", .str "extension"),
            ("extension", .str ext.name), ("command", .str cmd.name),
            ("args", .obj args)]
    match oracle 0 with
    | .error e => (.error (.Io e), [rendered])
    | .ok resp =>
      if resp.success = false then (.error (.CommandFailed resp), [rendered])
      else (.ok resp, [rendered])
  else
    (.error (.InvalidInvocation ("Unsupported handler type: " ++ ty) (build_usage ext cmd)), [])

/-- Function `resolve_invocation`: pick out the extension, command and bound
arguments from the raw tokens, or report "not an extension invocation"
(`none`). -/
def resolve_invocation (registry : ExtensionRegistry) (args : List String) :
    Except ExtensionError
      (Option (ExtensionManifest × ExtensionCommand × List (String × Value))) :=
  match args with
  | ext_name :: subcommand :: provided =>
    match registry.find ext_name with
    | none => .ok none
    | some ext =>
      match ext.commands.find? (fun c => c.name == subcommand) with
      | none =>
        .error (.InvalidInvocation ("Unknown subcommand: " ++ subcommand)
          ("agent-browser " ++ ext.name ++ " <command> [args]"))
      | some cmd =>
        match parse_args ext cmd (cmd.args.getD []) provided with
        | .ok m => .ok (some (ext, cmd, m))
        | .error e => .error e
  | _ => .ok none

/-- Function `try_execute_extension`: resolution then dispatch; the second component
again lists the requests handed to the transport. -/
def try_execute_extension (registry : ExtensionRegistry) (args : List String)
    (oracle : Nat → Except String Response) (genId : Nat → String) :
    (Except ExtensionError (Option Response)) × List Value :=
  match resolve_invocation registry args with
  | .error e => (.error e, [])
  | .ok none => (.ok none, [])
  | .ok (some (ext, cmd, m)) =>
    let r := execute_extension_command ext cmd m oracle genId
    match r.1 with
    | .error e => (.error e, r.2)
    | .ok resp => (.ok (some resp), r.2)

/-! ### Concrete sample data used by individual witnesses and
counterexamples -/

/-- A macro command whose `steps` list is present but empty. -/
def c1cmdEmpty : ExtensionCommand := ⟨"m.run", none, none, ⟨"macro", some []⟩⟩

/-- A macro command whose `steps` list is absent. -/
def c1cmdAbsent : ExtensionCommand := ⟨"m.run", none, none, ⟨"macro", none⟩⟩

/-- Host manifest for the two macro commands above. -/
def c1ext : ExtensionManifest :=
  ⟨"demo", none, none, none, none, [c1cmdEmpty, c1cmdAbsent], none, none⟩

/-- A macro step template: an object with an `action` field and a
placeholder. -/
def c2step : Value := .obj [("action", .str "click"), ("sel", .str "\x7b\x7bx\x7d\x7d")]

/-- A three-step macro command. -/
def c2cmd : ExtensionCommand := ⟨"m.three", none, none, ⟨"macro", some [c2step, c2step, c2step]⟩⟩

/-- Host manifest for the three-step macro. -/
def c2ext : ExtensionManifest := ⟨"demo2", none, none, none, none, [c2cmd], none, none⟩

/-- A transport whose second response reports failure and whose others
succeed. -/
def c2oracle : Nat → Except String Response :=
  fun n => if n = 1 then .ok ⟨false, .str "boom"⟩ else .ok ⟨true, .null⟩

/-- An `int`-typed argument declaration named `n`. -/
def c4arg : ExtensionArg := ⟨"n", some "int", none, none, none⟩

/-- A daemon command with one required string argument `selector`. -/
def c7cmd : ExtensionCommand :=
  ⟨"example.hello", none, some [⟨"selector", some "string", some true, none, none⟩],
    ⟨"daemon", none⟩⟩

/-- The manifest `myext` of the spec's end-to-end example. -/
def c7ext : ExtensionManifest := ⟨"myext", none, none, none, none, [c7cmd], none, none⟩

/-- The daemon response of the spec's end-to-end example. -/
def c7resp : Response := ⟨true, .obj [("text", .str "Hi")]⟩

/-- Two manifests sharing the name `dup`, distinguishable by version. -/
def c8m1 : ExtensionManifest := ⟨"dup", some "1", none, none, none, [], none, none⟩

/-- The later duplicate of `c8m1`. -/
def c8m2 : ExtensionManifest := ⟨"dup", some "2", none, none, none, [], none, none⟩

/-- An `int`-typed, required argument with a string default. -/
def c9arg : ExtensionArg := ⟨"x", some "int", some true, some (.str "oops"), none⟩

/-- A command declaring `c9arg`. -/
def c9cmd : ExtensionCommand := ⟨"c", none, some [c9arg], ⟨"daemon", none⟩⟩

/-- Host manifest for `c9cmd`. -/
def c9ext : ExtensionManifest := ⟨"e", none, none, none, none, [c9cmd], none, none⟩

/-- A manifest with a single command `c`, used to provoke an
unknown-subcommand error. -/
def c10ext : ExtensionManifest :=
  ⟨"e1", none, none, none, none, [⟨"c", none, none, ⟨"daemon", none⟩⟩], none, none⟩

/-! ## Theorems -/

/-! ### Registry lookup (claim C8) -/

theorem find_skips_nonmatching (name : String) (pre : List ExtensionManifest)
    (rest : List ExtensionManifest) (hpre : ∀ x ∈ pre, x.name ≠ name) :
    ExtensionRegistry.find ⟨pre ++ rest⟩ name = ExtensionRegistry.find ⟨rest⟩ name := by
  induction pre with
  | nil => rfl
  | cons x xs ih =>
    have hx : (x.name == name) = false := by
      have := hpre x (by simp)
      simp [this]
    simp only [ExtensionRegistry.find, List.cons_append, List.find?]
    rw [hx]
    exact ih (fun y hy => hpre y (by simp [hy]))

/-- C8: `find` returns the first manifest, in discovery order, whose `name`
field equals the queried name exactly; when earlier manifests do not match,
the first matching one is returned regardless of later duplicates, and when
none matches the result is `none` (no duplicate detection or reporting — the
result type carries no such information). -/
theorem c8_find_first_match (name : String) :
    (∀ (pre post : List ExtensionManifest) (m : ExtensionManifest),
        (∀ x ∈ pre, x.name ≠ name) → m.name = name →
        ExtensionRegistry.find ⟨pre ++ m :: post⟩ name = some m) ∧
    (∀ exts : List ExtensionManifest, (∀ x ∈ exts, x.name ≠ name) →
        ExtensionRegistry.find ⟨exts⟩ name = none) := by
  constructor
  · intro pre post m hpre hm
    rw [find_skips_nonmatching name pre (m :: post) hpre]
    have hx : (m.name == name) = true := by simp [hm]
    simp only [ExtensionRegistry.find, List.find?]
    rw [hx]
  · intro exts hexts
    have h := find_skips_nonmatching name exts [] hexts
    simpa [ExtensionRegistry.find] using h

/-- Witness for C8: with two manifests both named `dup`, the first one in
discovery order is returned. -/
theorem c8_find_first_match_witness :
    ExtensionRegistry.find ⟨[c8m1, c8m2]⟩ "dup" = some c8m1 :=
  (c8_find_first_match "dup").1 [] [c8m2] c8m1 (by simp) rfl

/-! ### Type coercion (claim C4) -/

/-- C4: type coercion is total and rejecting.  `int` parses the token as a
signed 64-bit integer and otherwise fails with `InvalidValue` naming the
argument and carrying the usage string; `number` likewise via the `f64`
grammar; `bool` accepts exactly the literals `true` and `false`; any other
declared type, or an absent one, binds the token verbatim as a string; a
failed `int`/`number`/`bool` parse never falls back to a string; and
concretely `"42"` parses to the integer `42` while `"abc"` parses to no
integer. -/
theorem c4_type_coercion (d : ExtensionArg) (raw usage : String) :
    ((d.arg_type = none ∨
        ∃ t, d.arg_type = some t ∧ t ≠ "int" ∧ t ≠ "number" ∧ t ≠ "bool") →
      parse_arg_value d raw usage = .ok (.str raw)) ∧
    (d.arg_type = some "int" →
      (∀ n : Int, parseI64 raw = some n →
        parse_arg_value d raw usage = .ok (.int n)) ∧
      (parseI64 raw = none →
        parse_arg_value d raw usage =
          .error (.InvalidValue ("Invalid int for " ++ d.name) usage)) ∧
      (∀ s, parse_arg_value d raw usage ≠ .ok (.str s))) ∧
    (d.arg_type = some "number" →
      (∀ f, parseF64 raw = some f →
        parse_arg_value d raw usage = .ok (valueFromF64 f)) ∧
      (parseF64 raw = none →
        parse_arg_value d raw usage =
          .error (.InvalidValue ("Invalid number for " ++ d.name) usage)) ∧
      (∀ s, parse_arg_value d raw usage ≠ .ok (.str s))) ∧
    (d.arg_type = some "bool" →
      (raw = "true" → parse_arg_value d raw usage = .ok (.bool true)) ∧
      (raw = "false" → parse_arg_value d raw usage = .ok (.bool false)) ∧
      (raw ≠ "true" → raw ≠ "false" →
        parse_arg_value d raw usage =
          .error (.InvalidValue ("Invalid bool for " ++ d.name) usage))) ∧
    (parseI64 "42" = some 42 ∧ parseI64 "abc" = none) := by
  refine ⟨?_, ?_, ?_, ?_, by decide, by decide⟩
  · rintro (h | ⟨t, ht, h1, h2, h3⟩)
    · simp [parse_arg_value, h]
    · simp [parse_arg_value, ht, h1, h2, h3]
  · intro h
    refine ⟨?_, ?_, ?_⟩
    · intro n hn
      simp [parse_arg_value, h, hn]
    · intro hn
      simp [parse_arg_value, h, hn]
    · intro s hcontra
      rw [show parse_arg_value d raw usage =
          (match parseI64 raw with
            | some n => .ok (.int n)
            | none => .error (.InvalidValue ("Invalid int for " ++ d.name) usage))
          from by simp [parse_arg_value, h]] at hcontra
      cases hp : parseI64 raw <;> simp [hp] at hcontra
  · intro h
    refine ⟨?_, ?_, ?_⟩
    · intro f hf
      simp [parse_arg_value, h, hf]
    · intro hf
      simp [parse_arg_value, h, hf]
    · intro s hcontra
      rw [show parse_arg_value d raw usage =
          (match parseF64 raw with
            | some f => .ok (valueFromF64 f)
            | none => .error (.InvalidValue ("Invalid number for " ++ d.name) usage))
          from by simp [parse_arg_value, h]] at hcontra
      cases hp : parseF64 raw with
      | none => simp [hp] at hcontra
      | some f => cases f <;> simp [hp, valueFromF64] at hcontra
  · intro h
    refine ⟨?_, ?_, ?_⟩
    · intro hr
      simp [parse_arg_value, h, hr, parseBool]
    · intro hr
      simp [parse_arg_value, h, hr, parseBool]
    · intro h1 h2
      simp [parse_arg_value, h, parseBool, h1, h2]

/-- Witness for C4: `"abc"` against the `int`-typed argument `n` yields
`InvalidValue`, `"42"` yields the JSON integer `42`. -/
theorem c4_type_coercion_witness :
    parse_arg_value c4arg "abc" "u" =
      .error (.InvalidValue ("Invalid int for " ++ "n") "u") ∧
    parse_arg_value c4arg "42" "u" = .ok (.int 42) :=
  ⟨((c4_type_coercion c4arg "abc" "u").2.1 rfl).2.1 (by decide),
   ((c4_type_coercion c4arg "42" "u").2.1 rfl).1 42 (by decide)⟩

/-! ### Daemon handler dispatch (claim C7) -/

/-- C7: a `daemon` handler synthesizes exactly one envelope `\x7bid,
action: "extension", extension, command, args\x7d`, hands exactly that one
request to the transport, returns a successful response unchanged, maps a
transport failure to `Io` and an unsuccessful response to `CommandFailed`
carrying it. -/
theorem c7_daemon_envelope (ext : ExtensionManifest) (cmd : ExtensionCommand)
    (args : List (String × Value)) (oracle : Nat → Except String Response)
    (genId : Nat → String) (hty : cmd.handler.handler_type = "daemon") :
    (execute_extension_command ext cmd args oracle genId).2 =
      [.obj [("id", .str (genId 0)), ("action", .str "extension"),
             ("extension", .str ext.name), ("command", .str cmd.name),
             ("args", .obj args)]] ∧
    (∀ r, oracle 0 = .ok r → r.success = true →
      (execute_extension_command ext cmd args oracle genId).1 = .ok r) ∧
    (∀ e, oracle 0 = .error e →
      (execute_extension_command ext cmd args oracle genId).1 = .error (.Io e)) ∧
    (∀ r, oracle 0 = .ok r → r.success = false →
      (execute_extension_command ext cmd args oracle genId).1 =
        .error (.CommandFailed r)) := by
  refine ⟨?_, ?_, ?_, ?_⟩
  · cases ho : oracle 0 with
    | error e => simp [execute_extension_command, hty, ho]
    | ok r =>
      cases hs : r.success <;> simp [execute_extension_command, hty, ho, hs]
  · intro r ho hs
    simp [execute_extension_command, hty, ho, hs]
  · intro e ho
    simp [execute_extension_command, hty, ho]
  · intro r ho hs
    simp [execute_extension_command, hty, ho, hs]

/-- Witness for C7: the spec's end-to-end example — `myext example.hello`
with bound argument `selector = ".title"` sends exactly the documented
envelope and returns the daemon's successful response unchanged. -/
theorem c7_daemon_envelope_witness :
    (execute_extension_command c7ext c7cmd [("selector", .str ".title")]
        (fun _ => .ok c7resp) (fun _ => "gen-1")).2 =
      [.obj [("id", .str "gen-1"), ("action", .str "extension"),
             ("extension", .str "myext"), ("command", .str "example.hello"),
             ("args", .obj [("selector", .str ".title")])]] ∧
    (execute_extension_command c7ext c7cmd [("selector", .str ".title")]
        (fun _ => .ok c7resp) (fun _ => "gen-1")).1 = .ok c7resp :=
  ⟨(c7_daemon_envelope c7ext c7cmd [("selector", .str ".title")]
      (fun _ => .ok c7resp) (fun _ => "gen-1") rfl).1,
   (c7_daemon_envelope c7ext c7cmd [("selector", .str ".title")]
      (fun _ => .ok c7resp) (fun _ => "gen-1") rfl).2.1 c7resp rfl rfl⟩

/-! ### Error shapes of resolution (claim C10) -/

theorem parse_arg_value_error_shape (d : ExtensionArg) (raw usage : String)
    (e : ExtensionError) (h : parse_arg_value d raw usage = .error e) :
    ∃ m u, e = .InvalidValue m u := by
  simp only [parse_arg_value] at h
  repeat' split at h
  all_goals first
    | exact ⟨_, _, (Except.error.inj h).symm⟩
    | exact Except.noConfusion h

theorem parseArgsGo_error_shape (usage : String) (provided : List String) :
    ∀ (defs : List ExtensionArg) (idx : Nat) (acc : List (String × Value))
      (e : ExtensionError),
      parseArgsGo usage provided defs idx acc = .error e →
      (∃ m u, e = .InvalidInvocation m u) ∨ (∃ m u, e = .InvalidValue m u) := by
  intro defs
  induction defs with
  | nil => intro idx acc e h; simp [parseArgsGo] at h
  | cons d rest ih =>
    intro idx acc e h
    simp only [parseArgsGo] at h
    split at h
    · split at h
      · exact ih _ _ _ h
      · rename_i e0 hp
        injection h with h
        subst h
        exact Or.inr (parse_arg_value_error_shape _ _ _ _ hp)
    · split at h
      · exact ih _ _ _ h
      · split at h
        · injection h with h
          exact Or.inl ⟨_, _, h.symm⟩
        · exact ih _ _ _ h

theorem parse_args_error_shape (ext : ExtensionManifest) (cmd : ExtensionCommand)
    (defs : List ExtensionArg) (provided : List String) (e : ExtensionError)
    (h : parse_args ext cmd defs provided = .error e) :
    (∃ m u, e = .InvalidInvocation m u) ∨ (∃ m u, e = .InvalidValue m u) := by
  unfold parse_args at h
  split at h
  · injection h with h
    exact Or.inl ⟨_, _, h.symm⟩
  · exact parseArgsGo_error_shape _ provided defs 0 [] e h

theorem resolve_invocation_error_shape (registry : ExtensionRegistry)
    (args : List String) (e : ExtensionError)
    (h : resolve_invocation registry args = .error e) :
    (∃ m u, e = .InvalidInvocation m u) ∨ (∃ m u, e = .InvalidValue m u) := by
  rw [resolve_invocation.eq_def] at h
  split at h
  · split at h
    · exact absurd h (by simp)
    · split at h
      · injection h with h
        exact Or.inl ⟨_, _, h.symm⟩
      · split at h
        · exact absurd h (by simp)
        · rename_i e0 hp
          injection h with h
          subst h
          exact parse_args_error_shape _ _ _ _ _ hp
  · exact absurd h (by simp)

/-- C10: a resolution failure is effect-free with respect to the daemon —
when `resolve_invocation` reports an error, `try_execute_extension` returns
exactly that error having handed no request at all to the transport, and the
error is always an `InvalidInvocation` or an `InvalidValue` (never `Io` or
`CommandFailed`). -/
theorem c10_resolution_effect_free (registry : ExtensionRegistry)
    (args : List String) (oracle : Nat → Except String Response)
    (genId : Nat → String) (e : ExtensionError)
    (h : resolve_invocation registry args = .error e) :
    try_execute_extension registry args oracle genId = (.error e, []) ∧
    ((∃ m u, e = .InvalidInvocation m u) ∨ (∃ m u, e = .InvalidValue m u)) := by
  constructor
  · simp [try_execute_extension, h]
  · exact resolve_invocation_error_shape registry args e h

/-- Witness for C10: an unknown subcommand resolves to `InvalidInvocation`
and the transport is never invoked. -/
theorem c10_resolution_effect_free_witness :
    try_execute_extension ⟨[c10ext]⟩ ["e1", "nope"] (fun _ => .error "down")
        (fun _ => "i0") =
      (.error (.InvalidInvocation ("Unknown subcommand: " ++ "nope")
        ("agent-browser " ++ "e1" ++ " <command> [args]")), []) :=
  (c10_resolution_effect_free ⟨[c10ext]⟩ ["e1", "nope"] (fun _ => .error "down")
    (fun _ => "i0") _ rfl).1

/-! ### Argument binding refines the spec's algorithm (claim C3) -/

theorem getElem?_eq_head_drop {α : Type _} (l : List α) :
    ∀ n : Nat, l[n]? = (l.drop n).head? := by
  induction l with
  | nil => intro n; simp
  | cons a as ih =>
    intro n
    cases n with
    | zero => simp
    | succ n => simpa using ih n

theorem drop_succ_eq_tail {α : Type _} (l : List α) :
    ∀ n : Nat, l.drop (n + 1) = (l.drop n).tail := by
  induction l with
  | nil => intro n; simp
  | cons a as ih =>
    intro n
    cases n with
    | zero => simp
    | succ n => simpa using ih n

theorem parseArgsGo_eq_spec (usage : String) (provided : List String) :
    ∀ (defs : List ExtensionArg) (idx : Nat) (acc : List (String × Value)),
      parseArgsGo usage provided defs idx acc =
        parseArgsSpecGo usage defs (provided.drop idx) acc := by
  intro defs
  induction defs with
  | nil =>
    intro idx acc
    simp [parseArgsGo, parseArgsSpecGo]
  | cons d rest ih =>
    intro idx acc
    rw [parseArgsGo, getElem?_eq_head_drop]
    cases hd : provided.drop idx with
    | nil =>
      have hd1 : provided.drop (idx + 1) = [] := by
        rw [drop_succ_eq_tail, hd]
        rfl
      simp only [List.head?]
      rw [parseArgsSpecGo]
      cases d.default with
      | some dv => simpa [hd1] using ih (idx + 1) (mapInsert acc d.name dv)
      | none =>
        by_cases hr : d.required.getD true = true
        · simp [hr]
        · simpa [hr, hd1] using ih (idx + 1) acc
    | cons raw ts =>
      have hd1 : provided.drop (idx + 1) = ts := by
        rw [drop_succ_eq_tail, hd]
        rfl
      simp only [List.head?]
      rw [parseArgsSpecGo]
      cases parse_arg_value d raw usage with
      | ok v => simpa [hd1] using ih (idx + 1) (mapInsert acc d.name v)
      | error e => simp

/-- C3: `parse_args` implements exactly the binding algorithm the spec
describes — more tokens than declared arguments is `InvalidInvocation`
("Too many arguments"); then, per declared argument in order, a provided
token is coerced and bound, otherwise a declared default is bound, otherwise
a required argument (required defaults to true) raises `InvalidInvocation`
("Missing argument: <name>"), and otherwise the argument is simply absent
from the bound map. -/
theorem c3_parse_args_refines_spec (ext : ExtensionManifest)
    (cmd : ExtensionCommand) (defs : List ExtensionArg)
    (provided : List String) :
    parse_args ext cmd defs provided = parseArgsSpec ext cmd defs provided := by
  unfold parse_args parseArgsSpec
  split
  · rfl
  · simpa using parseArgsGo_eq_spec (build_usage ext cmd) provided defs 0 []

/-! ### Defaults are bound verbatim (claim C9) -/

theorem lookupArg_mapInsert_self (m : List (String × Value)) (k : String)
    (v : Value) : lookupArg (mapInsert m k v) k = some v := by
  induction m with
  | nil => simp [mapInsert, lookupArg]
  | cons kv rest ih =>
    obtain ⟨k0, v0⟩ := kv
    by_cases hk : k0 = k
    · simp [mapInsert, hk, lookupArg]
    · simp [mapInsert, hk, lookupArg, ih]

theorem lookupArg_mapInsert_ne (m : List (String × Value)) (k k' : String)
    (v : Value) (hne : k' ≠ k) :
    lookupArg (mapInsert m k v) k' = lookupArg m k' := by
  have hkk : ¬ k = k' := fun h => hne h.symm
  induction m with
  | nil => simp [mapInsert, lookupArg, hkk]
  | cons kv rest ih =>
    obtain ⟨k0, v0⟩ := kv
    by_cases hk : k0 = k
    · subst hk
      simp [mapInsert, lookupArg, hkk]
    · by_cases hk' : k0 = k'
      · subst hk'
        simp [mapInsert, lookupArg, hk]
      · simp [mapInsert, hk, lookupArg, hk', ih]

theorem parseArgsGo_preserves_other_keys (usage : String)
    (provided : List String) :
    ∀ (defs : List ExtensionArg) (idx : Nat) (acc m : List (String × Value))
      (k : String),
      parseArgsGo usage provided defs idx acc = .ok m →
      (∀ d ∈ defs, d.name ≠ k) →
      lookupArg m k = lookupArg acc k := by
  intro defs
  induction defs with
  | nil =>
    intro idx acc m k h _
    simp [parseArgsGo] at h
    subst h
    rfl
  | cons d rest ih =>
    intro idx acc m k h hk
    have hdk : d.name ≠ k := hk d (by simp)
    have hrest : ∀ d0 ∈ rest, d0.name ≠ k := fun d0 hd0 => hk d0 (by simp [hd0])
    simp only [parseArgsGo] at h
    split at h
    · split at h
      · rw [ih _ _ _ _ h hrest, lookupArg_mapInsert_ne _ _ _ _ (Ne.symm hdk)]
      · exact Except.noConfusion h
    · split at h
      · rw [ih _ _ _ _ h hrest, lookupArg_mapInsert_ne _ _ _ _ (Ne.symm hdk)]
      · split at h
        · exact Except.noConfusion h
        · exact ih _ _ _ _ h hrest

theorem parseArgsGo_default_bound (usage : String) (provided : List String)
    (d : ExtensionArg) (dv : Value) (post : List ExtensionArg)
    (hdef : d.default = some dv) (hpost : ∀ d0 ∈ post, d0.name ≠ d.name) :
    ∀ (pre : List ExtensionArg) (idx : Nat) (acc m : List (String × Value)),
      parseArgsGo usage provided (pre ++ d :: post) idx acc = .ok m →
      provided.length ≤ idx + pre.length →
      lookupArg m d.name = some dv := by
  intro pre
  induction pre with
  | nil =>
    intro idx acc m h hlen
    simp only [List.nil_append, parseArgsGo] at h
    have hnone : provided[idx]? = none := by
      exact List.getElem?_eq_none (by simpa using hlen)
    rw [hnone, hdef] at h
    rw [parseArgsGo_preserves_other_keys usage provided post _ _ _ _ h hpost]
    exact lookupArg_mapInsert_self acc d.name dv
  | cons p pre' ih =>
    intro idx acc m h hlen
    have hlen' : provided.length ≤ (idx + 1) + pre'.length := by
      simp only [List.length_cons] at hlen
      omega
    simp only [List.cons_append, parseArgsGo] at h
    split at h
    · split at h
      · exact ih _ _ _ h hlen'
      · exact Except.noConfusion h
    · split at h
      · exact ih _ _ _ h hlen'
      · split at h
        · exact Except.noConfusion h
        · exact ih _ _ _ h hlen'

/-- C9: a declared default is cloned into the bound map verbatim — for any
default JSON value `dv`, whatever the argument's declared type and even when
the argument is marked required, a slot with no provided token binds exactly
`dv`, never a coerced or validated variant of it. -/
theorem c9_default_bound_verbatim (ext : ExtensionManifest)
    (cmd : ExtensionCommand) (pre post : List ExtensionArg)
    (d : ExtensionArg) (dv : Value) (provided : List String)
    (m : List (String × Value))
    (hdef : d.default = some dv)
    (hpost : ∀ d0 ∈ post, d0.name ≠ d.name)
    (hlen : provided.length ≤ pre.length)
    (h : parse_args ext cmd (pre ++ d :: post) provided = .ok m) :
    lookupArg m d.name = some dv := by
  unfold parse_args at h
  split at h
  · exact Except.noConfusion h
  · exact parseArgsGo_default_bound (build_usage ext cmd) provided d dv post
      hdef hpost pre 0 [] m h (by simpa using hlen)

/-- Witness for C9: an `int`-typed, required argument with the string
default `"oops"` and no provided token binds exactly that string. -/
theorem c9_default_bound_verbatim_witness :
    lookupArg [("x", Value.str "oops")] "x" = some (Value.str "oops") :=
  c9_default_bound_verbatim c9ext c9cmd [] [] c9arg (.str "oops") [] _
    rfl (by simp) (by simp) rfl

/-! ### Macro steps presence (claim C1) -/

/-- Counterexample to C1 as stated: for a macro command whose `steps` list
is present but empty, dispatch does not fail with `InvalidInvocation`
("Macro handler missing steps") — it returns the default response
successfully (and sends nothing).  Only an absent list triggers the error. -/
theorem c1_empty_steps_counterexample :
    execute_extension_command c1ext c1cmdEmpty []
        (fun _ => .error "unreachable") (fun _ => "id0") =
      (.ok Response.default, []) ∧
    (execute_extension_command c1ext c1cmdEmpty []
        (fun _ => .error "unreachable") (fun _ => "id0")).1 ≠
      .error (.InvalidInvocation "Macro handler missing steps"
        (build_usage c1ext c1cmdEmpty)) := by
  constructor
  · rfl
  · intro hcontra
    have h1 : (execute_extension_command c1ext c1cmdEmpty []
        (fun _ => .error "unreachable") (fun _ => "id0")).1 =
        .ok Response.default := rfl
    rw [h1] at hcontra
    exact Except.noConfusion hcontra

/-- C1 as amended: for a macro handler, only an *absent* `steps` list fails
with `InvalidInvocation` ("Macro handler missing steps", usage) with no
request sent; a present-but-empty list sends no request either, but
succeeds, returning the default response. -/
theorem c1_missing_steps (ext : ExtensionManifest) (cmd : ExtensionCommand)
    (args : List (String × Value)) (oracle : Nat → Except String Response)
    (genId : Nat → String) (hty : cmd.handler.handler_type = "macro") :
    (cmd.handler.steps = none →
      execute_extension_command ext cmd args oracle genId =
        (.error (.InvalidInvocation "Macro handler missing steps"
          (build_usage ext cmd)), [])) ∧
    (cmd.handler.steps = some [] →
      execute_extension_command ext cmd args oracle genId =
        (.ok Response.default, [])) := by
  constructor <;> intro hs <;> simp [execute_extension_command, hty, hs, runSteps]

/-- Witness for the amended C1: the absent-steps command errors without
sending, the empty-steps command returns the default response without
sending. -/
theorem c1_missing_steps_witness :
    execute_extension_command c1ext c1cmdAbsent []
        (fun _ => .error "unreachable") (fun _ => "id0") =
      (.error (.InvalidInvocation "Macro handler missing steps"
        (build_usage c1ext c1cmdAbsent)), []) ∧
    execute_extension_command c1ext c1cmdEmpty []
        (fun _ => .error "unreachable") (fun _ => "id0") =
      (.ok Response.default, []) :=
  ⟨(c1_missing_steps c1ext c1cmdAbsent [] (fun _ => .error "unreachable")
      (fun _ => "id0") rfl).1 rfl,
   (c1_missing_steps c1ext c1cmdEmpty [] (fun _ => .error "unreachable")
      (fun _ => "id0") rfl).2 rfl⟩

/-! ### String-matching lemmas for interpolation (claims C5, C6) -/

theorem listPrefixOf_iff (p : List Char) :
    ∀ l, listPrefixOf p l = true ↔ ∃ t, l = p ++ t := by
  induction p with
  | nil =>
    intro l
    simp [listPrefixOf]
  | cons a as ih =>
    intro l
    cases l with
    | nil => simp [listPrefixOf]
    | cons b bs =>
      simp only [listPrefixOf, Bool.and_eq_true, decide_eq_true_eq, ih]
      constructor
      · rintro ⟨rfl, t, rfl⟩
        exact ⟨t, rfl⟩
      · rintro ⟨t, ht⟩
        injection ht with h1 h2
        exact ⟨h1.symm, t, h2⟩

theorem listPrefixOf_refl (l : List Char) : listPrefixOf l l = true := by
  rw [listPrefixOf_iff]
  exact ⟨[], by simp⟩

theorem containsSub_self (l : List Char) : containsSub l l = true := by
  cases l with
  | nil => rfl
  | cons c rest => simp [containsSub, listPrefixOf_refl]

theorem listPrefixOf_of_append (p q l : List Char)
    (h : listPrefixOf (p ++ q) l = true) : listPrefixOf p l = true := by
  rw [listPrefixOf_iff] at h ⊢
  obtain ⟨t, rfl⟩ := h
  exact ⟨q ++ t, by simp⟩

theorem containsSub_of_append (p q : List Char) :
    ∀ l, containsSub (p ++ q) l = true → containsSub p l = true := by
  intro l
  induction l with
  | nil =>
    intro h
    simp only [containsSub] at h ⊢
    rw [listPrefixOf_iff] at h ⊢
    obtain ⟨t, ht⟩ := h
    rcases List.append_eq_nil.mp (List.append_assoc p q t ▸ ht.symm) with ⟨hp, _⟩
    exact ⟨[], by simp [hp]⟩
  | cons c rest ih =>
    intro h
    simp only [containsSub, Bool.or_eq_true] at h ⊢
    cases h with
    | inl h => exact Or.inl (listPrefixOf_of_append p q _ h)
    | inr h => exact Or.inr (ih h)

theorem strData_append (a b : String) : (a ++ b).data = a.data ++ b.data := rfl

theorem string_eq_of_data (a b : String) (h : a.data = b.data) : a = b := by
  cases a with
  | mk da =>
    cases b with
    | mk db =>
      have hd : da = db := h
      rw [hd]

theorem noDoubleBrace_noPlaceholder (s : String)
    (h : strContains s "\x7b\x7b" = false) :
    ∀ t : String, strContains s ("\x7b\x7b" ++ t ++ "\x7d\x7d") = false := by
  intro t
  cases hc : strContains s ("\x7b\x7b" ++ t ++ "\x7d\x7d") with
  | false => rfl
  | true =>
    exfalso
    unfold strContains at hc h
    have hdata : ("\x7b\x7b" ++ t ++ "\x7d\x7d").data =
        "\x7b\x7b".data ++ (t.data ++ "\x7d\x7d".data) := by
      rw [strData_append, strData_append, List.append_assoc]
    rw [hdata] at hc
    have := containsSub_of_append "\x7b\x7b".data (t.data ++ "\x7d\x7d".data)
      s.data hc
    rw [h] at this
    exact Bool.noConfusion this

theorem exact_placeholder_decomp (s k : String)
    (h : exact_placeholder s = some k) : s = "\x7b\x7b" ++ k ++ "\x7d\x7d" := by
  unfold exact_placeholder at h
  split at h
  · rename_i hcond
    obtain ⟨hpre, hsuf, hlen⟩ := hcond
    injection h with h
    rw [listPrefixOf_iff] at hpre
    obtain ⟨t, ht⟩ := hpre
    unfold listSuffixOf at hsuf
    rw [listPrefixOf_iff] at hsuf
    obtain ⟨u, hu⟩ := hsuf
    have hs2 : s.data = u.reverse ++ ['\x7d', '\x7d'] := by
      have h2 := congrArg List.reverse hu
      simpa using h2
    have htlen : t.length + 2 = s.data.length := by
      rw [ht]
      simp
    have hulen : u.reverse.length + 2 = s.data.length := by
      rw [hs2]
      simp
    obtain ⟨a, b, w, huw⟩ : ∃ a b w, u.reverse = a :: b :: w := by
      cases hur : u.reverse with
      | nil =>
        exfalso
        rw [hur] at hulen
        simp only [List.length_nil, List.length_cons] at hulen
        omega
      | cons a rest =>
        cases hrest : rest with
        | nil =>
          exfalso
          rw [hur, hrest] at hulen
          simp only [List.length_nil, List.length_cons] at hulen
          omega
        | cons b w => exact ⟨a, b, w, rfl⟩
    have hctw : ('\x7b' :: '\x7b' :: t : List Char) =
        a :: b :: (w ++ ['\x7d', '\x7d']) := by
      have := ht.symm.trans hs2
      simpa [huw] using this
    injection hctw with ha hctw
    injection hctw with hb hctw
    have hklen : s.data.length - 4 = w.length := by
      have : t.length = w.length + 2 := by rw [hctw]; simp
      omega
    have hkdata : k.data = w := by
      rw [← h]
      show ((s.data.drop 2).take (s.data.length - 4)) = w
      rw [ht, hctw]
      have hdrop : ((['\x7b', '\x7b'] ++ (w ++ ['\x7d', '\x7d'])).drop 2) =
          w ++ ['\x7d', '\x7d'] := rfl
      rw [hdrop]
      have hcount : (['\x7b', '\x7b'] ++ (w ++ ['\x7d', '\x7d'])).length - 4 =
          w.length := by
        simp only [List.length_append, List.length_cons, List.length_nil]
        omega
      rw [hcount]
      exact List.take_left w ['\x7d', '\x7d']
    apply string_eq_of_data
    rw [strData_append, strData_append, hkdata, ht, hctw]
    rfl
  · exact Option.noConfusion h

theorem lookupArg_mem (l : List (String × Value)) (k : String) (v : Value)
    (h : lookupArg l k = some v) : (k, v) ∈ l := by
  induction l with
  | nil => exact Option.noConfusion h
  | cons kv rest ih =>
    obtain ⟨k0, v0⟩ := kv
    simp only [lookupArg] at h
    split at h
    · rename_i heq
      injection h with h
      subst heq
      subst h
      exact List.mem_cons_self _ _
    · exact List.mem_cons_of_mem _ (ih h)

theorem substAll_of_not_contains (s : String) :
    ∀ args : List (String × Value),
      (∀ kv ∈ args, strContains s ("\x7b\x7b" ++ kv.1 ++ "\x7d\x7d") = false) →
      substAll args s = s := by
  intro args
  induction args with
  | nil => intro _; rfl
  | cons kv rest ih =>
    intro h
    have h0 := h kv (by simp)
    show List.foldl _ _ (kv :: rest) = s
    rw [List.foldl_cons]
    have hstep :
        (if strContains s ("\x7b\x7b" ++ kv.1 ++ "\x7d\x7d") then
          strReplace s ("\x7b\x7b" ++ kv.1 ++ "\x7d\x7d") (renderForSubst kv.2)
        else s) = s := by
      rw [h0]
      simp
    simpa [hstep] using ih (fun kv2 hm => h kv2 (by simp [hm]))

theorem interpolate_string_of_no_bound_placeholder (s : String)
    (args : List (String × Value))
    (hnc : ∀ kv ∈ args, strContains s ("\x7b\x7b" ++ kv.1 ++ "\x7d\x7d") = false) :
    interpolate_string s args = .str s := by
  unfold interpolate_string
  cases hex : exact_placeholder s with
  | none => rw [substAll_of_not_contains s args hnc]
  | some key =>
    cases hlk : lookupArg args key with
    | none => simp [hlk, substAll_of_not_contains s args hnc]
    | some v =>
      exfalso
      have hs := exact_placeholder_decomp s key hex
      have hmem := lookupArg_mem args key v hlk
      have hfalse := hnc (key, v) hmem
      rw [hs] at hfalse
      simp only [strContains, containsSub_self] at hfalse
      exact Bool.noConfusion hfalse

/-! ### Interpolation theorems (claims C5 and C6) -/

/-- C5: if the whole template string is exactly one placeholder (per
`exact_placeholder`) whose key is bound, interpolation returns that
argument's raw typed JSON value; in every other case it returns a *string*,
namely the template with every bound placeholder substituted textually
(`substAll`); and when no bound key's placeholder occurs in the string at
all, that string is returned literally (unknown placeholders stay in
place). -/
theorem c5_interpolation_exact_raw (s : String) (args : List (String × Value)) :
    (∀ key v, exact_placeholder s = some key → lookupArg args key = some v →
      interpolate_string s args = v) ∧
    ((∀ key, exact_placeholder s = some key → lookupArg args key = none) →
      interpolate_string s args = .str (substAll args s)) ∧
    ((∀ kv ∈ args, strContains s ("\x7b\x7b" ++ kv.1 ++ "\x7d\x7d") = false) →
      interpolate_string s args = .str s) := by
  refine ⟨?_, ?_, ?_⟩
  · intro key v hex hlk
    simp [interpolate_string, hex, hlk]
  · intro hnone
    unfold interpolate_string
    cases hex : exact_placeholder s with
    | none => rfl
    | some key => simp [hnone key hex]
  · exact interpolate_string_of_no_bound_placeholder s args

/-- Witness for C5: the spec's type-preservation example — the template
string that is exactly the placeholder for `x`, with `x` bound to the
integer `7`, interpolates to the JSON integer `7`, not its string
rendering. -/
theorem c5_interpolation_exact_raw_witness :
    interpolate_string "\x7b\x7bx\x7d\x7d" [("x", Value.int 7)] = Value.int 7 :=
  (c5_interpolation_exact_raw "\x7b\x7bx\x7d\x7d" [("x", Value.int 7)]).1
    "x" (Value.int 7) rfl rfl

/-- C6: interpolation is the identity on placeholder-free strings — for
every bound-argument map, a template string containing no `\x7b\x7b...\x7d\x7d`
sequence interpolates to itself — and non-string scalars (null, booleans,
numbers) are always returned untouched. -/
theorem c6_interpolation_identity (s : String) (args : List (String × Value))
    (h : ∀ t : String, strContains s ("\x7b\x7b" ++ t ++ "\x7d\x7d") = false) :
    interpolate_value (.str s) args = .str s ∧
    interpolate_value .null args = .null ∧
    (∀ b, interpolate_value (.bool b) args = .bool b) ∧
    (∀ n : Int, interpolate_value (.int n) args = .int n) ∧
    (∀ q : Rat, interpolate_value (.num q) args = .num q) := by
  refine ⟨?_, by simp [interpolate_value], fun b => by simp [interpolate_value],
    fun n => by simp [interpolate_value], fun q => by simp [interpolate_value]⟩
  have hv : interpolate_value (.str s) args = interpolate_string s args := by
    simp [interpolate_value]
  rw [hv]
  exact interpolate_string_of_no_bound_placeholder s args (fun kv _ => h kv.1)

/-- Witness for C6: a placeholder-free string and the scalar `null` pass
through interpolation unchanged under a nonempty bound-argument map. -/
theorem c6_interpolation_identity_witness :
    interpolate_value (.str "hello") [("x", Value.int 7)] = .str "hello" ∧
    interpolate_value .null [("x", Value.int 7)] = .null :=
  ⟨(c6_interpolation_identity "hello" [("x", Value.int 7)]
      (noDoubleBrace_noPlaceholder "hello" (by decide))).1,
   (c6_interpolation_identity "hello" [("x", Value.int 7)]
      (noDoubleBrace_noPlaceholder "hello" (by decide))).2.1⟩

/-! ### Macro execution order and fail-fast (claim C2) -/

theorem find?_append_id (fields : List (String × Value)) (s : String) :
    List.find? (fun f => f.1 == "action") (fields ++ [("id", Value.str s)]) =
      List.find? (fun f => f.1 == "action") fields := by
  induction fields with
  | nil => rfl
  | cons f fs ih =>
    rw [List.cons_append]
    cases hpa : (f.1 == "action") with
    | true => simp [List.find?_cons, hpa]
    | false => simp [List.find?_cons, hpa, ih]

/-- Inserting a missing `id` never affects the `action` field. -/
theorem getField_action_ensure (genId : Nat → String) (v : Value) (ctr : Nat) :
    getField (ensure_command_id genId v ctr).1 "action" = getField v "action" := by
  cases v with
  | obj fields =>
    by_cases hid : (List.find? (fun f => f.1 == "id") fields).isSome = true
    · simp [ensure_command_id, hid]
    · simp [ensure_command_id, hid, getField, find?_append_id]
  | null => rfl
  | bool b => rfl
  | int n => rfl
  | num q => rfl
  | str s => rfl
  | arr items => rfl

theorem runSteps_cons_ok (genId : Nat → String) (usage : String)
    (args : List (String × Value)) (oracle : Nat → Except String Response)
    (step : Value) (rest : List Value) (ctr : Nat) (last r0 : Response)
    (hra : (getField (interpolate_value step args) "action").isSome = true)
    (ho0 : oracle 0 = .ok r0) (hs0 : r0.success = true) :
    runSteps genId usage args oracle (step :: rest) ctr last =
      ((runSteps genId usage args (fun n => oracle (n + 1)) rest
          (ensure_command_id genId (interpolate_value step args) ctr).2 r0).1,
        (ensure_command_id genId (interpolate_value step args) ctr).1 ::
          (runSteps genId usage args (fun n => oracle (n + 1)) rest
            (ensure_command_id genId (interpolate_value step args) ctr).2 r0).2) := by
  simp [runSteps, getField_action_ensure, hra, ho0, hs0]

theorem runSteps_cons_err (genId : Nat → String) (usage : String)
    (args : List (String × Value)) (oracle : Nat → Except String Response)
    (step : Value) (rest : List Value) (ctr : Nat) (last : Response)
    (msg : String)
    (hra : (getField (interpolate_value step args) "action").isSome = true)
    (ho0 : oracle 0 = .error msg) :
    runSteps genId usage args oracle (step :: rest) ctr last =
      (.error (.Io msg),
        [(ensure_command_id genId (interpolate_value step args) ctr).1]) := by
  simp [runSteps, getField_action_ensure, hra, ho0]

theorem runSteps_cons_fail (genId : Nat → String) (usage : String)
    (args : List (String × Value)) (oracle : Nat → Except String Response)
    (step : Value) (rest : List Value) (ctr : Nat) (last r0 : Response)
    (hra : (getField (interpolate_value step args) "action").isSome = true)
    (ho0 : oracle 0 = .ok r0) (hs0 : r0.success = false) :
    runSteps genId usage args oracle (step :: rest) ctr last =
      (.error (.CommandFailed r0),
        [(ensure_command_id genId (interpolate_value step args) ctr).1]) := by
  simp [runSteps, getField_action_ensure, hra, ho0, hs0]

theorem runSteps_all_ok (genId : Nat → String) (usage : String)
    (args : List (String × Value)) :
    ∀ (l : List Value) (oracle : Nat → Except String Response) (ctr : Nat)
      (last : Response),
      (∀ s ∈ l, (getField (interpolate_value s args) "action").isSome = true) →
      (∀ j, j < l.length → ∃ r, oracle j = .ok r ∧ r.success = true) →
      (runSteps genId usage args oracle l ctr last).2 =
        renderSeq genId args l ctr ∧
      (l = [] → (runSteps genId usage args oracle l ctr last).1 = .ok last) ∧
      (∀ r, l ≠ [] → oracle (l.length - 1) = .ok r →
        (runSteps genId usage args oracle l ctr last).1 = .ok r) := by
  intro l
  induction l with
  | nil =>
    intro oracle ctr last _ _
    exact ⟨rfl, fun _ => rfl, fun r hne => absurd rfl hne⟩
  | cons step rest ih =>
    intro oracle ctr last hact hok
    obtain ⟨r0, ho0, hs0⟩ := hok 0 (by simp)
    have hra : (getField (interpolate_value step args) "action").isSome = true :=
      hact step (by simp)
    have hstep := runSteps_cons_ok genId usage args oracle step rest ctr last r0
      hra ho0 hs0
    have ihr := ih (fun n => oracle (n + 1))
      (ensure_command_id genId (interpolate_value step args) ctr).2 r0
      (fun s hs => hact s (by simp [hs]))
      (fun j hj => hok (j + 1) (by simp only [List.length_cons]; omega))
    refine ⟨?_, ?_, ?_⟩
    · rw [hstep]
      show _ :: _ = renderSeq genId args (step :: rest) ctr
      rw [renderSeq]
      rw [ihr.1]
    · intro hcontra
      exact List.noConfusion hcontra
    · intro r _ hor
      rw [hstep]
      show (runSteps genId usage args (fun n => oracle (n + 1)) rest
        (ensure_command_id genId (interpolate_value step args) ctr).2 r0).1 = .ok r
      cases rest with
      | nil =>
        have h1 := ihr.2.1 rfl
        simp only [List.length_cons, List.length_nil] at hor
        rw [ho0] at hor
        injection hor with hor
        rw [h1, hor]
      | cons s2 rest2 =>
        apply ihr.2.2 r (fun hc => List.noConfusion hc)
        show oracle ((s2 :: rest2).length - 1 + 1) = .ok r
        simp only [List.length_cons] at hor ⊢
        simpa using hor

theorem runSteps_fail_fast (genId : Nat → String) (usage : String)
    (args : List (String × Value)) :
    ∀ (l : List Value) (oracle : Nat → Except String Response) (ctr : Nat)
      (last : Response) (i : Nat),
      i < l.length →
      (∀ s ∈ l, (getField (interpolate_value s args) "action").isSome = true) →
      (∀ j, j < i → ∃ r, oracle j = .ok r ∧ r.success = true) →
      (∀ msg, oracle i = .error msg →
        runSteps genId usage args oracle l ctr last =
          (.error (.Io msg), (renderSeq genId args l ctr).take (i + 1))) ∧
      (∀ r, oracle i = .ok r → r.success = false →
        runSteps genId usage args oracle l ctr last =
          (.error (.CommandFailed r), (renderSeq genId args l ctr).take (i + 1))) := by
  intro l
  induction l with
  | nil =>
    intro oracle ctr last i hi _ _
    exact absurd hi (by simp)
  | cons step rest ih =>
    intro oracle ctr last i hi hact hok
    have hra : (getField (interpolate_value step args) "action").isSome = true :=
      hact step (by simp)
    cases i with
    | zero =>
      constructor
      · intro msg ho0
        rw [runSteps_cons_err genId usage args oracle step rest ctr last msg hra ho0]
        rw [renderSeq]
        rfl
      · intro r ho0 hs0
        rw [runSteps_cons_fail genId usage args oracle step rest ctr last r hra ho0 hs0]
        rw [renderSeq]
        rfl
    | succ i0 =>
      obtain ⟨r0, ho0, hs0⟩ := hok 0 (by omega)
      have hstep := runSteps_cons_ok genId usage args oracle step rest ctr last r0
        hra ho0 hs0
      have ihr := ih (fun n => oracle (n + 1))
        (ensure_command_id genId (interpolate_value step args) ctr).2 r0 i0
        (by simp only [List.length_cons] at hi; omega)
        (fun s hs => hact s (by simp [hs]))
        (fun j hj => hok (j + 1) (by omega))
      constructor
      · intro msg hoi
        rw [hstep, (ihr.1 msg (by simpa using hoi))]
        rw [renderSeq]
        rfl
      · intro r hoi hsr
        rw [hstep, (ihr.2 r (by simpa using hoi) hsr)]
        rw [renderSeq]
        rfl

/-- C2: macro steps are dispatched strictly in declared order and execution
is fail-fast.  With the transport outcomes given by `oracle` (indexed by
send count) and all steps rendering an `action`-carrying object: a transport
failure at step `i` (all earlier steps succeeding) yields `Io` with the
transport's message after exactly the first `i+1` rendered requests were
sent; a `success:false` response at step `i` yields `CommandFailed` wrapping
exactly that response, again with only the first `i+1` requests sent (later
steps never dispatched, earlier effects not revisited); and when every step
succeeds, the last step's response is returned after all requests were sent
in declared order. -/
theorem c2_macro_fail_fast (ext : ExtensionManifest) (cmd : ExtensionCommand)
    (args : List (String × Value)) (oracle : Nat → Except String Response)
    (genId : Nat → String) (l : List Value)
    (hty : cmd.handler.handler_type = "macro")
    (hsteps : cmd.handler.steps = some l)
    (hact : ∀ s ∈ l, (getField (interpolate_value s args) "action").isSome = true) :
    (∀ i msg, i < l.length →
      (∀ j, j < i → ∃ r0, oracle j = .ok r0 ∧ r0.success = true) →
      oracle i = .error msg →
      execute_extension_command ext cmd args oracle genId =
        (.error (.Io msg), (renderSeq genId args l 0).take (i + 1))) ∧
    (∀ i r, i < l.length →
      (∀ j, j < i → ∃ r0, oracle j = .ok r0 ∧ r0.success = true) →
      oracle i = .ok r → r.success = false →
      execute_extension_command ext cmd args oracle genId =
        (.error (.CommandFailed r), (renderSeq genId args l 0).take (i + 1))) ∧
    (∀ r, l ≠ [] →
      (∀ j, j < l.length → ∃ r0, oracle j = .ok r0 ∧ r0.success = true) →
      oracle (l.length - 1) = .ok r →
      execute_extension_command ext cmd args oracle genId =
        (.ok r, renderSeq genId args l 0)) := by
  have hexec : execute_extension_command ext cmd args oracle genId =
      runSteps genId (build_usage ext cmd) args oracle l 0 Response.default := by
    simp [execute_extension_command, hty, hsteps]
  refine ⟨?_, ?_, ?_⟩
  · intro i msg hi hok hoi
    rw [hexec]
    exact (runSteps_fail_fast genId (build_usage ext cmd) args l oracle 0
      Response.default i hi hact hok).1 msg hoi
  · intro i r hi hok hoi hsr
    rw [hexec]
    exact (runSteps_fail_fast genId (build_usage ext cmd) args l oracle 0
      Response.default i hi hact hok).2 r hoi hsr
  · intro r hne hok hor
    rw [hexec]
    have hall := runSteps_all_ok genId (build_usage ext cmd) args l oracle 0
      Response.default hact hok
    have h1 := hall.1
    have h2 := hall.2.2 r hne hor
    exact Prod.ext h2 h1

/-- Witness for C2: the spec's three-step example — the daemon reports
failure for step 2, so exactly two requests are sent, step 3 is never
dispatched, and the result is `CommandFailed` wrapping step 2's response. -/
theorem c2_macro_fail_fast_witness :
    execute_extension_command c2ext c2cmd [("x", Value.int 7)] c2oracle
        (fun n => toString n) =
      (.error (.CommandFailed ⟨false, .str "boom"⟩),
        (renderSeq (fun n => toString n) [("x", Value.int 7)]
          [c2step, c2step, c2step] 0).take 2) :=
  (c2_macro_fail_fast c2ext c2cmd [("x", Value.int 7)] c2oracle
      (fun n => toString n) [c2step, c2step, c2step] rfl rfl
      (by
        intro s hs
        simp only [List.mem_cons, List.not_mem_nil, or_false] at hs
        rcases hs with rfl | rfl | rfl <;>
          simp [c2step, interpolate_value, interpFields, getField, List.find?])).2.1
    1 ⟨false, .str "boom"⟩ (by simp)
    (by
      intro j hj
      have hj0 : j = 0 := by omega
      subst hj0
      exact ⟨⟨true, .null⟩, rfl, rfl⟩)
    rfl rfl

end AgentBrowser
